import Mathlib

/-!
Verification of the SATB mark-queue write-barrier logging subsystem
(`src/hotspot/share/gc/g1/satbMarkQueue.hpp`).

The per-queue state (`_buf`, `_index`, `_active`) is embedded as
`SATBMarkQueue`: the buffer is an optional list of entries whose length is
the capacity `C`; the active range is `[index, C)`, filled from the top
down.  `SATBMarkQueue::apply_filter` is the two-fingered compaction loop of
the header, embedded below as `twoFingerInner` (the inner `while (src <
--dst)` search for a discard) and `twoFingerOuter` (the outer `for (; src <
dst; ++src)` scan for keepers).

Operations whose bodies live outside the header (`flush`,
`apply_closure_to_completed_buffer`, `abandon_partial_marking`) are
modelled from the specification document, and say so in their doc comments.
-/

namespace SATB

/-- Queue state: optional buffer (a list of entries; its length is the
capacity), cursor `index`, and the `active` flag. -/
structure SATBMarkQueue (α : Type) where
  buf : Option (List α)
  index : Nat
  active : Bool
deriving DecidableEq, Repr

/-- Inner loop of `SATBMarkQueue::apply_filter`:
`while (src < --dst) { if (filter_out(*dst)) { *dst = entry; break; } }`.
The argument is the current `dst`; the decremented cursor is `d`.  Returns
the updated buffer and the final `dst`. -/
def twoFingerInner [Inhabited α] (p : α → Bool) (l : List α) (entry : α)
    (src : Nat) : Nat → List α × Nat
  | 0 => (l, 0)
  | d + 1 =>
    if src < d then
      if p (l.getD d default) then (l.set d entry, d)
      else twoFingerInner p l entry src d
    else (l, d)

theorem twoFingerInner_snd_lt [Inhabited α] (p : α → Bool) (l : List α)
    (entry : α) (src dst : Nat) (h : src < dst) :
    (twoFingerInner p l entry src dst).2 < dst := by
  induction dst with
  | zero => omega
  | succ d ih =>
    simp only [twoFingerInner]
    split
    · split
      · simp
      · exact Nat.lt_succ_of_lt (ih (by omega))
    · simp

/-- Outer loop of `SATBMarkQueue::apply_filter`:
`for ( ; src < dst; ++src) { entry := *src; if (!filter_out(entry)) {
inner search } }`.  Returns the final buffer and the final `dst`
(`set_index(dst - buf)` in the source). -/
def twoFingerOuter [Inhabited α] (p : α → Bool) (l : List α)
    (src dst : Nat) : List α × Nat :=
  if h : src < dst then
    if p (l.getD src default) then twoFingerOuter p l (src + 1) dst
    else
      let r := twoFingerInner p l (l.getD src default) src dst
      twoFingerOuter p r.1 (src + 1) r.2
  else (l, dst)
termination_by dst - src
decreasing_by
  · omega
  · have := twoFingerInner_snd_lt p l (l.getD src default) src dst h
    omega

/-- `SATBMarkQueue::apply_filter<Filter>`: if `_buf == NULL` do nothing,
otherwise run the two-fingered compaction over `[index, capacity)` and set
the index to the final `dst`. -/
def SATBMarkQueue.apply_filter [Inhabited α] (p : α → Bool)
    (q : SATBMarkQueue α) : SATBMarkQueue α :=
  match q.buf with
  | none => q
  | some l =>
    let r := twoFingerOuter p l q.index l.length
    { buf := some r.1, index := r.2, active := q.active }

/-- The active range `[index, C)` of a queue's buffer, as a list
(low slot to high slot). -/
def SATBMarkQueue.activeList (q : SATBMarkQueue α) : List α :=
  (q.buf.getD []).drop q.index

/-- Slots examined (i.e. slots on which the predicate is evaluated) by the
inner discard search, in examination order.  Mirrors `twoFingerInner`:
one evaluation of `filter_out(*dst)` per visited slot. -/
def twoFingerInnerExam [Inhabited α] (p : α → Bool) (l : List α)
    (src : Nat) : Nat → List Nat
  | 0 => []
  | d + 1 =>
    if src < d then
      if p (l.getD d default) then [d]
      else d :: twoFingerInnerExam p l src d
    else []

/-- Slots examined by the outer loop (each `entry = *src` read evaluates
the predicate once, plus the slots the inner search visits). Mirrors
`twoFingerOuter`. -/
def twoFingerOuterExam [Inhabited α] (p : α → Bool) (l : List α)
    (src dst : Nat) : List Nat :=
  if h : src < dst then
    if p (l.getD src default) then
      src :: twoFingerOuterExam p l (src + 1) dst
    else
      let r := twoFingerInner p l (l.getD src default) src dst
      src :: (twoFingerInnerExam p l src dst ++
        twoFingerOuterExam p r.1 (src + 1) r.2)
  else []
termination_by dst - src
decreasing_by
  · omega
  · have := twoFingerInner_snd_lt p l (l.getD src default) src dst h
    omega

/-- Slots examined by `apply_filter`, in order. -/
def SATBMarkQueue.applyFilterExam [Inhabited α] (p : α → Bool)
    (q : SATBMarkQueue α) : List Nat :=
  match q.buf with
  | none => []
  | some l => twoFingerOuterExam p l q.index l.length

/-- Modelled from the spec: `PtrQueue::enqueue` (the append path lives in
`ptrQueue.hpp`/`ptrQueue.cpp`, which are not under `src/`).  Per the spec:
"New entries are appended by decrementing `index` (fills from the top
down)" and "When `active == false`, no enqueue may occur"; a full buffer
(`index == 0`) routes to the slow path instead of writing. -/
def SATBMarkQueue.append (e : α) (q : SATBMarkQueue α) : SATBMarkQueue α :=
  if q.active then
    match q.buf with
    | none => q
    | some l =>
      if q.index = 0 then q
      else { buf := some (l.set (q.index - 1) e), index := q.index - 1,
             active := q.active }
  else q

/-- Modelled from the spec: resetting a queue to the "empty/absent" state
(buffer handed away, `index` at the capacity `cap` of the set's buffers),
as required of `flush()` and `abandon_partial_marking()`. -/
def SATBMarkQueue.reset (cap : Nat) (q : SATBMarkQueue α) :
    SATBMarkQueue α :=
  { buf := none, index := cap, active := q.active }

/-- Pool-side state of a `SATBMarkQueueSet`: the completed-buffer
collection (each with its buffer contents and index) and the size of the
free list. -/
structure SATBQueueSetState (α : Type) where
  completed : List (List α × Nat)
  free : Nat
deriving DecidableEq, Repr

/-- Modelled from the spec: `SATBMarkQueue::flush` (body in
`satbMarkQueue.cpp`, not under `src/`): "filters the current buffer; if
the resulting active range is non-empty, transfers it to the completed
set; otherwise returns it directly to the free list.  Resets the queue to
the empty/absent state."  `p` is the set's filter predicate, `cap` the
buffer capacity. -/
def SATBMarkQueue.flush [Inhabited α] (p : α → Bool) (cap : Nat)
    (q : SATBMarkQueue α) (s : SATBQueueSetState α) :
    SATBMarkQueue α × SATBQueueSetState α :=
  let qf := q.apply_filter p
  match qf.buf with
  | none => (qf.reset cap, s)
  | some l =>
    if qf.index < l.length then
      (qf.reset cap,
       { completed := (l, qf.index) :: s.completed, free := s.free })
    else (qf.reset cap, { completed := s.completed, free := s.free + 1 })

/-- Modelled from the spec:
`SATBMarkQueueSet::apply_closure_to_completed_buffer` (body in
`satbMarkQueue.cpp`, not under `src/`): "pops one buffer from the
completed set if any exists, invokes the consumer over its active range,
recycles the buffer to the free list, and returns whether a buffer was
available."  The consumer invocation is recorded as the optional
processed range (`none` = consumer not invoked). -/
def applyClosureToCompletedBuffer (s : SATBQueueSetState α) :
    Bool × Option (List α) × SATBQueueSetState α :=
  match s.completed with
  | [] => (false, none, s)
  | b :: rest =>
    (true, some (b.1.drop b.2), ⟨rest, s.free + 1⟩)

/-- Modelled from the spec: `SATBMarkQueueSet::abandon_partial_marking`
(body in `satbMarkQueue.cpp`, not under `src/`): "discards every
currently completed buffer and resets every live queue to the
empty/absent state"; the shared queue is reset as well. -/
def abandonPartialMarking (cap : Nat) (qs : List (SATBMarkQueue α))
    (shared : SATBMarkQueue α) (s : SATBQueueSetState α) :
    List (SATBMarkQueue α) × SATBMarkQueue α × SATBQueueSetState α :=
  (qs.map (SATBMarkQueue.reset cap), shared.reset cap,
   ⟨[], s.free + s.completed.length⟩)

/-! ### List helper lemmas -/

theorem getD_set_ne [Inhabited α] (l : List α) (i k : Nat) (a : α)
    (h : i ≠ k) : (l.set i a).getD k default = l.getD k default := by
  rw [List.getD_eq_getElem?_getD, List.getD_eq_getElem?_getD,
    List.getElem?_set_ne h]

theorem getD_set_self [Inhabited α] (l : List α) (i : Nat) (a : α)
    (h : i < l.length) : (l.set i a).getD i default = a := by
  rw [List.getD_eq_getElem?_getD, List.getElem?_set, if_pos rfl, if_pos h]
  rfl

theorem getD_drop [Inhabited α] (l : List α) (n k : Nat) :
    (l.drop n).getD k default = l.getD (n + k) default := by
  rw [List.getD_eq_getElem?_getD, List.getD_eq_getElem?_getD,
    List.getElem?_drop]

theorem drop_set_of_le (l : List α) (n j : Nat) (a : α) (h : n ≤ j) :
    (l.set j a).drop n = (l.drop n).set (j - n) a := by
  apply List.ext_getElem?
  intro k
  rw [List.getElem?_drop, List.getElem?_set, List.getElem?_set,
    List.getElem?_drop]
  simp only [List.length_drop]
  split_ifs <;> first | rfl | omega

theorem drop_eq_getD_cons [Inhabited α] (l : List α) (n : Nat)
    (h : n < l.length) :
    l.drop n = l.getD n default :: l.drop (n + 1) := by
  rw [List.getD_eq_getElem l default h]
  exact List.drop_eq_getElem_cons h

/-- All elements of `l.drop j` satisfy `P` iff all slots at positions
`j ≤ k < l.length` do. -/
theorem forall_mem_drop_iff [Inhabited α] (P : α → Prop) (l : List α)
    (j : Nat) :
    (∀ x ∈ l.drop j, P x) ↔
      ∀ k, j ≤ k → k < l.length → P (l.getD k default) := by
  constructor
  · intro h k hjk hkl
    have hk : k - j < (l.drop j).length := by
      simp only [List.length_drop]; omega
    have := h ((l.drop j).getD (k - j) default)
      (by rw [List.getD_eq_getElem _ _ hk]; exact List.getElem_mem hk)
    rwa [getD_drop, Nat.add_sub_cancel' hjk] at this
  · intro h x hx
    rw [List.mem_iff_getElem] at hx
    obtain ⟨i, hi, rfl⟩ := hx
    have hlen : j + i < l.length := by
      simp only [List.length_drop] at hi; omega
    have h2 := h (j + i) (by omega) hlen
    rw [List.getD_eq_getElem l default hlen] at h2
    rw [List.getElem_drop]
    exact h2

/-- Filtering after replacing a discarded slot by a kept value `a` inserts
exactly `a` into the filtered list, up to permutation. -/
theorem filter_set_perm [Inhabited α] (p : α → Bool) (l : List α)
    (j : Nat) (a : α) (hj : j < l.length)
    (hdisc : p (l.getD j default) = true) (hkeep : p a = false) :
    ((l.set j a).filter (fun x => !p x)).Perm
      (a :: l.filter (fun x => !p x)) := by
  induction l generalizing j with
  | nil => simp at hj
  | cons x t ih =>
    cases j with
    | zero =>
      simp only [List.getD_cons_zero] at hdisc
      simp [List.filter_cons, hdisc, hkeep]
    | succ j =>
      simp only [List.getD_cons_succ] at hdisc
      simp only [List.set_cons_succ, List.filter_cons]
      cases hx : p x with
      | false =>
        simp only [Bool.not_false, if_pos trivial]
        exact ((ih j (by simpa using hj) hdisc).cons x).trans
          (List.Perm.swap a x _)
      | true =>
        simpa using ih j (by simpa using hj) hdisc

/-! ### Inner loop specification -/

/-- Full behaviour of the inner discard search: it either finds no discard
and leaves the buffer untouched with `dst` stopped at `src` (all slots
strictly between were keepers), or it finds a discard at the final `dst`,
overwrites it with `entry`, and all slots above it (below the old `dst`)
were keepers. -/
theorem twoFingerInner_spec [Inhabited α] (p : α → Bool) (l : List α)
    (entry : α) (src dst : Nat) (h : src < dst) :
    src ≤ (twoFingerInner p l entry src dst).2 ∧
    (twoFingerInner p l entry src dst).2 < dst ∧
    (((twoFingerInner p l entry src dst).1 = l ∧
      (twoFingerInner p l entry src dst).2 = src ∧
      (∀ k, src < k → k < dst → p (l.getD k default) = false)) ∨
     (src < (twoFingerInner p l entry src dst).2 ∧
      p (l.getD (twoFingerInner p l entry src dst).2 default) = true ∧
      (twoFingerInner p l entry src dst).1 =
        l.set (twoFingerInner p l entry src dst).2 entry ∧
      (∀ k, (twoFingerInner p l entry src dst).2 < k → k < dst →
        p (l.getD k default) = false))) := by
  induction dst with
  | zero => omega
  | succ d ih =>
    simp only [twoFingerInner]
    by_cases hsd : src < d
    · rw [if_pos hsd]
      cases hp : p (l.getD d default) with
      | true =>
        rw [if_pos rfl]
        refine ⟨by omega, by omega, Or.inr ⟨hsd, hp, rfl, ?_⟩⟩
        intro k h1 h2
        omega
      | false =>
        rw [if_neg (by simp)]
        obtain ⟨h1, h2, h3⟩ := ih hsd
        refine ⟨h1, by omega, ?_⟩
        rcases h3 with ⟨e1, e2, e3⟩ | ⟨e1, e2, e3, e4⟩
        · refine Or.inl ⟨e1, e2, ?_⟩
          intro k k1 k2
          rcases Nat.lt_or_ge k d with hk | hk
          · exact e3 k k1 hk
          · have : k = d := by omega
            rwa [this]
        · refine Or.inr ⟨e1, e2, e3, ?_⟩
          intro k k1 k2
          rcases Nat.lt_or_ge k d with hk | hk
          · exact e4 k k1 hk
          · have : k = d := by omega
            rwa [this]
    · rw [if_neg hsd]
      have : d = src := by omega
      subst this
      exact ⟨Nat.le_refl _, by omega, Or.inl ⟨rfl, rfl, by intro k k1 k2; omega⟩⟩

/-! ### Outer loop unfolding lemmas -/

theorem twoFingerOuter_eq_of_not_lt [Inhabited α] (p : α → Bool)
    (l : List α) (src dst : Nat) (h : ¬ src < dst) :
    twoFingerOuter p l src dst = (l, dst) := by
  unfold twoFingerOuter
  rw [dif_neg h]

theorem twoFingerOuter_eq_skip [Inhabited α] (p : α → Bool) (l : List α)
    (src dst : Nat) (h : src < dst) (hp : p (l.getD src default) = true) :
    twoFingerOuter p l src dst = twoFingerOuter p l (src + 1) dst := by
  conv_lhs => unfold twoFingerOuter
  rw [dif_pos h, if_pos hp]

theorem twoFingerOuter_eq_keep [Inhabited α] (p : α → Bool) (l : List α)
    (src dst : Nat) (h : src < dst) (hp : p (l.getD src default) = false) :
    twoFingerOuter p l src dst =
      twoFingerOuter p
        (twoFingerInner p l (l.getD src default) src dst).1 (src + 1)
        (twoFingerInner p l (l.getD src default) src dst).2 := by
  conv_lhs => unfold twoFingerOuter
  rw [dif_pos h, if_neg (by rw [hp]; exact Bool.false_ne_true)]

theorem filter_eq_self_of_keepers [Inhabited α] (p : α → Bool)
    (l : List α) (j : Nat)
    (h : ∀ k, j ≤ k → k < l.length → p (l.getD k default) = false) :
    (l.drop j).filter (fun x => !p x) = l.drop j := by
  apply List.filter_eq_self.mpr
  intro a ha
  have := (forall_mem_drop_iff (fun x => p x = false) l j).mpr h a ha
  simp [this]

/-! ### Outer loop specification -/

/-- Main invariant of the two-fingered compaction: assuming everything at
and above `dst` is a keeper, the loop preserves the buffer length, moves
`dst` to a final position between `src` and `dst`, never touches slots
below `src`, and the final region `[dst', C)` is, as a multiset, exactly
the kept part of `[src, C)`. -/
theorem twoFingerOuter_spec [Inhabited α] (p : α → Bool) :
    ∀ (n : Nat) (l : List α) (src dst : Nat), dst - src ≤ n → src ≤ dst →
    dst ≤ l.length → (∀ x ∈ l.drop dst, p x = false) →
    (twoFingerOuter p l src dst).1.length = l.length ∧
    src ≤ (twoFingerOuter p l src dst).2 ∧
    (twoFingerOuter p l src dst).2 ≤ dst ∧
    (∀ k, k < src →
      (twoFingerOuter p l src dst).1.getD k default = l.getD k default) ∧
    ((twoFingerOuter p l src dst).1.drop
        (twoFingerOuter p l src dst).2).Perm
      ((l.drop src).filter (fun x => !p x)) := by
  intro n
  induction n with
  | zero =>
    intro l src dst hfuel hle hlen hkeep
    have hsd : ¬ src < dst := by omega
    have hed : src = dst := by omega
    rw [twoFingerOuter_eq_of_not_lt p l src dst hsd]
    refine ⟨rfl, by omega, by omega, fun k _ => rfl, ?_⟩
    subst hed
    rw [filter_eq_self_of_keepers p l src
      ((forall_mem_drop_iff (fun x => p x = false) l src).mp hkeep)]
  | succ m ih =>
    intro l src dst hfuel hle hlen hkeep
    by_cases hsd : src < dst
    · cases hp : p (l.getD src default) with
      | true =>
        rw [twoFingerOuter_eq_skip p l src dst hsd hp]
        obtain ⟨L1, L2, L3, L4, L5⟩ :=
          ih l (src + 1) dst (by omega) (by omega) hlen hkeep
        refine ⟨L1, by omega, L3, fun k hk => L4 k (by omega), ?_⟩
        rw [drop_eq_getD_cons l src (by omega), List.filter_cons]
        simp only [hp, Bool.not_true]
        simpa using L5
      | false =>
        rw [twoFingerOuter_eq_keep p l src dst hsd hp]
        obtain ⟨i1, i2, i3⟩ :=
          twoFingerInner_spec p l (l.getD src default) src dst hsd
        rcases i3 with ⟨e1, e2, e3⟩ | ⟨e1, e2, e3, e4⟩
        · -- no discard found: dst landed on src, outer loop terminates
          rw [e1, e2, twoFingerOuter_eq_of_not_lt p l (src + 1) src
            (by omega)]
          refine ⟨rfl, by omega, by omega, fun k _ => rfl, ?_⟩
          rw [filter_eq_self_of_keepers p l src ?_]
          intro k hk1 hk2
          rcases Nat.lt_or_ge k dst with hkd | hkd
          · rcases Nat.eq_or_lt_of_le hk1 with hke | hke
            · rwa [← hke]
            · exact e3 k hke hkd
          · exact (forall_mem_drop_iff (fun x => p x = false) l dst).mp
              hkeep k hkd hk2
        · -- discard found at e := inner result; buffer got `set`
          have hd_len : (twoFingerInner p l (l.getD src default) src dst).2
              < l.length := by omega
          have hkeep2 : ∀ x ∈ (twoFingerInner p l (l.getD src default)
              src dst).1.drop
              (twoFingerInner p l (l.getD src default) src dst).2,
              p x = false := by
            apply (forall_mem_drop_iff (fun x => p x = false) _ _).mpr
            intro k hk1 hk2
            rw [e3, List.length_set] at hk2
            rcases Nat.eq_or_lt_of_le hk1 with hke | hke
            · rw [e3, ← hke, getD_set_self l _ _ hd_len]
              exact hp
            · rw [e3, getD_set_ne l _ k _ (by omega)]
              rcases Nat.lt_or_ge k dst with hkd | hkd
              · exact e4 k hke hkd
              · exact (forall_mem_drop_iff (fun x => p x = false) l
                  dst).mp hkeep k hkd hk2
          obtain ⟨L1, L2, L3, L4, L5⟩ :=
            ih (twoFingerInner p l (l.getD src default) src dst).1
              (src + 1)
              (twoFingerInner p l (l.getD src default) src dst).2
              (by omega) (by omega)
              (by rw [e3, List.length_set]; omega) hkeep2
          rw [e3] at L1 L2 L3 L4 L5 ⊢
          rw [List.length_set] at L1
          refine ⟨L1, by omega, by omega, ?_, ?_⟩
          · intro k hk
            rw [L4 k (by omega), getD_set_ne l _ k _ (by omega)]
          · -- permutation accounting
            have hset : (l.set
                (twoFingerInner p l (l.getD src default) src dst).2
                (l.getD src default)).drop (src + 1) =
                (l.drop (src + 1)).set
                  ((twoFingerInner p l (l.getD src default) src dst).2
                    - (src + 1)) (l.getD src default) :=
              drop_set_of_le l (src + 1) _ _ (by omega)
            have hperm2 := filter_set_perm p (l.drop (src + 1))
              ((twoFingerInner p l (l.getD src default) src dst).2
                - (src + 1)) (l.getD src default)
              (by rw [List.length_drop]; omega)
              (by rw [getD_drop,
                    Nat.add_sub_cancel' (by omega : src + 1 ≤ _)]
                  exact e2)
              hp
            rw [hset] at L5
            refine (L5.trans hperm2).trans ?_
            rw [drop_eq_getD_cons l src (by omega), List.filter_cons]
            simp only [hp, Bool.not_false, if_pos]
            exact List.Perm.refl _
    · rw [twoFingerOuter_eq_of_not_lt p l src dst hsd]
      have hed : src = dst := by omega
      refine ⟨rfl, by omega, by omega, fun k _ => rfl, ?_⟩
      subst hed
      rw [filter_eq_self_of_keepers p l src
        ((forall_mem_drop_iff (fun x => p x = false) l src).mp hkeep)]

/-! ### All-keepers runs are identities -/

/-- If every slot of `[src, C)` is a keeper, the compaction loop leaves
the buffer untouched and stops `dst` at `src`. -/
theorem twoFingerOuter_keepers [Inhabited α] (p : α → Bool) (L : List α)
    (src : Nat) (hsrc : src ≤ L.length)
    (hk : ∀ k, src ≤ k → k < L.length → p (L.getD k default) = false) :
    twoFingerOuter p L src L.length = (L, src) := by
  rcases Nat.eq_or_lt_of_le hsrc with he | hlt
  · rw [twoFingerOuter_eq_of_not_lt p L src L.length (by omega), he]
  · have hp : p (L.getD src default) = false := hk src (Nat.le_refl _) hlt
    rw [twoFingerOuter_eq_keep p L src L.length hlt hp]
    obtain ⟨i1, i2, i3⟩ :=
      twoFingerInner_spec p L (L.getD src default) src L.length hlt
    rcases i3 with ⟨e1, e2, _⟩ | ⟨e1, e2, _, _⟩
    · rw [e1, e2, twoFingerOuter_eq_of_not_lt p L (src + 1) src (by omega)]
    · rw [hk _ (by omega) i2] at e2
      exact absurd e2 Bool.false_ne_true

/-! ### Claim theorems -/

/-- C1: for every buffer of capacity `C` with a present buffer, every
starting index `0 ≤ index ≤ C` and every predicate `P`, after
`apply_filter(P)` the active range `[new_index, C)` holds exactly the
multiset `{e ∈ original active range : ¬P(e)}`, and the new index is
`C − |kept set|`. -/
theorem apply_filter_multiset_and_index [Inhabited α] (p : α → Bool)
    (q : SATBMarkQueue α) (l : List α) (hbuf : q.buf = some l)
    (hidx : q.index ≤ l.length) :
    (((q.apply_filter p).activeList : Multiset α) =
      (q.activeList.filter (fun x => !p x) : Multiset α)) ∧
    (q.apply_filter p).index =
      l.length - (q.activeList.filter (fun x => !p x)).length := by
  obtain ⟨L1, L2, L3, L4, L5⟩ :=
    twoFingerOuter_spec p (l.length - q.index) l q.index l.length
      (by omega) hidx (Nat.le_refl _) (by simp)
  have hq : q.apply_filter p =
      { buf := some (twoFingerOuter p l q.index l.length).1,
        index := (twoFingerOuter p l q.index l.length).2,
        active := q.active } := by
    unfold SATBMarkQueue.apply_filter
    rw [hbuf]
  have hact : q.activeList = l.drop q.index := by
    unfold SATBMarkQueue.activeList
    rw [hbuf]
    rfl
  have hact' : (q.apply_filter p).activeList =
      (twoFingerOuter p l q.index l.length).1.drop
        (twoFingerOuter p l q.index l.length).2 := by
    rw [hq]
    rfl
  constructor
  · rw [hact, hact']
    exact Multiset.coe_eq_coe.mpr L5
  · have hlen := L5.length_eq
    rw [List.length_drop, L1] at hlen
    rw [hq, hact]
    simp only
    omega

/-- C1 witness: capacity 4, buffer `[4,3,2,1]`, index 0, discard evens. -/
theorem apply_filter_multiset_and_index_witness :
    ((((⟨some [4, 3, 2, 1], 0, true⟩ : SATBMarkQueue Nat).apply_filter
        (fun x => x % 2 == 0)).activeList : Multiset Nat) =
      ((((⟨some [4, 3, 2, 1], 0, true⟩ :
          SATBMarkQueue Nat)).activeList.filter
        (fun x => !(x % 2 == 0)) : List Nat) : Multiset Nat)) ∧
    ((⟨some [4, 3, 2, 1], 0, true⟩ : SATBMarkQueue Nat).apply_filter
      (fun x => x % 2 == 0)).index =
      [4, 3, 2, 1].length -
        ((((⟨some [4, 3, 2, 1], 0, true⟩ :
            SATBMarkQueue Nat)).activeList.filter
          (fun x => !(x % 2 == 0))).length) :=
  apply_filter_multiset_and_index (fun x => x % 2 == 0)
    ⟨some [4, 3, 2, 1], 0, true⟩ [4, 3, 2, 1] rfl (by decide)

/-- C3: `apply_filter` is idempotent — a second application with the same
predicate changes nothing at all (hence neither the index nor the active
multiset). -/
theorem apply_filter_idempotent [Inhabited α] (p : α → Bool)
    (q : SATBMarkQueue α) :
    (q.apply_filter p).apply_filter p = q.apply_filter p := by
  match hb : q.buf with
  | none =>
    have h1 : q.apply_filter p = q := by
      unfold SATBMarkQueue.apply_filter
      rw [hb]
    rw [h1, h1]
  | some l =>
    have hq : q.apply_filter p =
        { buf := some (twoFingerOuter p l q.index l.length).1,
          index := (twoFingerOuter p l q.index l.length).2,
          active := q.active } := by
      unfold SATBMarkQueue.apply_filter
      rw [hb]
    by_cases hidx : q.index ≤ l.length
    · obtain ⟨L1, L2, L3, L4, L5⟩ :=
        twoFingerOuter_spec p (l.length - q.index) l q.index l.length
          (by omega) hidx (Nat.le_refl _) (by simp)
      have hkeep : ∀ k, (twoFingerOuter p l q.index l.length).2 ≤ k →
          k < (twoFingerOuter p l q.index l.length).1.length →
          p ((twoFingerOuter p l q.index l.length).1.getD k default)
            = false := by
        apply (forall_mem_drop_iff (fun x => p x = false) _ _).mp
        intro x hx
        have hmem := (L5.mem_iff.mp hx)
        have := (List.mem_filter.mp hmem).2
        simpa using this
      have h2 : twoFingerOuter p (twoFingerOuter p l q.index l.length).1
          (twoFingerOuter p l q.index l.length).2
          (twoFingerOuter p l q.index l.length).1.length =
          ((twoFingerOuter p l q.index l.length).1,
           (twoFingerOuter p l q.index l.length).2) :=
        twoFingerOuter_keepers p _ _ (by omega) hkeep
      rw [hq]
      unfold SATBMarkQueue.apply_filter
      simp only [h2]
    · have h0 : twoFingerOuter p l q.index l.length = (l, l.length) :=
        twoFingerOuter_eq_of_not_lt p l _ _ (by omega)
      have h2 : twoFingerOuter p l l.length l.length = (l, l.length) :=
        twoFingerOuter_eq_of_not_lt p l _ _ (by omega)
      rw [hq, h0]
      unfold SATBMarkQueue.apply_filter
      simp only [h2]

/-- C9: with an absent buffer (`_buf == NULL`), `apply_filter` returns
immediately and the queue (index, buffer, active flag) is unchanged. -/
theorem apply_filter_no_buffer [Inhabited α] (p : α → Bool)
    (q : SATBMarkQueue α) (h : q.buf = none) : q.apply_filter p = q := by
  unfold SATBMarkQueue.apply_filter
  rw [h]

/-- C9 witness. -/
theorem apply_filter_no_buffer_witness :
    (⟨none, 7, true⟩ : SATBMarkQueue Nat).apply_filter
      (fun x => x % 2 == 0) = ⟨none, 7, true⟩ :=
  apply_filter_no_buffer (fun x => x % 2 == 0) ⟨none, 7, true⟩ rfl

/-- C10: `apply_filter` writes only inside the original active range:
slots `[0, index)` are untouched, and the new index lies in
`[index, C]`. -/
theorem apply_filter_frame [Inhabited α] (p : α → Bool)
    (q : SATBMarkQueue α) (l : List α) (hbuf : q.buf = some l)
    (hidx : q.index ≤ l.length) :
    (∀ k, k < q.index →
      ((q.apply_filter p).buf.getD []).getD k default
        = l.getD k default) ∧
    q.index ≤ (q.apply_filter p).index ∧
    (q.apply_filter p).index ≤ l.length := by
  obtain ⟨L1, L2, L3, L4, L5⟩ :=
    twoFingerOuter_spec p (l.length - q.index) l q.index l.length
      (by omega) hidx (Nat.le_refl _) (by simp)
  have hq : q.apply_filter p =
      { buf := some (twoFingerOuter p l q.index l.length).1,
        index := (twoFingerOuter p l q.index l.length).2,
        active := q.active } := by
    unfold SATBMarkQueue.apply_filter
    rw [hbuf]
  rw [hq]
  exact ⟨fun k hk => L4 k hk, L2, L3⟩

/-- C10 witness. -/
theorem apply_filter_frame_witness :
    (∀ k, k < 2 →
      ((((⟨some [9, 8, 4, 3, 2, 1], 2, true⟩ :
          SATBMarkQueue Nat).apply_filter
        (fun x => x % 2 == 0)).buf.getD []).getD k default
        = [9, 8, 4, 3, 2, 1].getD k default)) ∧
    2 ≤ ((⟨some [9, 8, 4, 3, 2, 1], 2, true⟩ :
        SATBMarkQueue Nat).apply_filter (fun x => x % 2 == 0)).index ∧
    ((⟨some [9, 8, 4, 3, 2, 1], 2, true⟩ :
        SATBMarkQueue Nat).apply_filter
      (fun x => x % 2 == 0)).index ≤ [9, 8, 4, 3, 2, 1].length :=
  apply_filter_frame (fun x => x % 2 == 0)
    ⟨some [9, 8, 4, 3, 2, 1], 2, true⟩ [9, 8, 4, 3, 2, 1] rfl (by decide)

/-- C4: relative order among survivors is not preserved: there are buffer
contents and a predicate for which two surviving entries end up in the
opposite relative slot order.  Witnessed by buffer `[1,2,3,4]`, index 0,
discarding evens: survivors 1, 3 start in that slot order and end as
`[3, 1]`. -/
theorem apply_filter_not_order_preserving :
    ∃ (q : SATBMarkQueue Nat) (p : Nat → Bool) (a b : Nat),
      p a = false ∧ p b = false ∧
      List.indexOf a q.activeList < List.indexOf b q.activeList ∧
      List.indexOf b ((q.apply_filter p).activeList) <
        List.indexOf a ((q.apply_filter p).activeList) ∧
      a ∈ (q.apply_filter p).activeList ∧
      b ∈ (q.apply_filter p).activeList := by
  have h1 : ((⟨some [1, 2, 3, 4], 0, true⟩ :
      SATBMarkQueue Nat).apply_filter (fun x => x % 2 == 0)).activeList
      = [3, 1] := by
    simp [SATBMarkQueue.apply_filter, SATBMarkQueue.activeList,
      twoFingerOuter, twoFingerInner]
  refine ⟨⟨some [1, 2, 3, 4], 0, true⟩, fun x => x % 2 == 0, 1, 3,
    rfl, rfl, by decide, ?_, ?_, ?_⟩
  · rw [h1]; decide
  · rw [h1]; decide
  · rw [h1]; decide

/-- C2 counterexample: appending `A,B,C,D = 1,2,3,4` into a fresh
capacity-4 buffer fills it from the top down, so the active range in slot
order low-to-high is `[D,C,B,A] = [4,3,2,1]`, not `[A,B,C,D] =
[1,2,3,4]` as the claim states. -/
theorem append_slot_order_counterexample :
    (((((⟨some [0, 0, 0, 0], 4, true⟩ :
        SATBMarkQueue Nat).append 1).append 2).append 3).append 4
      ).activeList = [4, 3, 2, 1] ∧
    ([4, 3, 2, 1] : List Nat) ≠ [1, 2, 3, 4] := by
  constructor
  · decide
  · decide

/-- C2 (amended): capacity 4, appending `A, B, C, D` in order takes
`index` through 4→3→2→1→0 and leaves the active range `[0,4)` equal to
`[D, C, B, A]` in slot order low-to-high (the appended entries fill the
buffer from the top down); then `apply_filter` with a predicate that
discards exactly `B` and `D` yields `index == 2` and an active range
`[2,4)` containing exactly the multiset `{A, C}`. -/
theorem append_filter_scenario (A B C D w x y z : Nat) (p : Nat → Bool)
    (hA : p A = false) (hB : p B = true) (hC : p C = false)
    (hD : p D = true) :
    ((⟨some [w, x, y, z], 4, true⟩ :
      SATBMarkQueue Nat).append A).index = 3 ∧
    (((⟨some [w, x, y, z], 4, true⟩ :
      SATBMarkQueue Nat).append A).append B).index = 2 ∧
    ((((⟨some [w, x, y, z], 4, true⟩ :
      SATBMarkQueue Nat).append A).append B).append C).index = 1 ∧
    (((((⟨some [w, x, y, z], 4, true⟩ :
      SATBMarkQueue Nat).append A).append B).append C).append D).index
      = 0 ∧
    (((((⟨some [w, x, y, z], 4, true⟩ :
      SATBMarkQueue Nat).append A).append B).append C).append D
      ).activeList = [D, C, B, A] ∧
    ((((((⟨some [w, x, y, z], 4, true⟩ :
      SATBMarkQueue Nat).append A).append B).append C).append D
      ).apply_filter p).index = 2 ∧
    (((((((⟨some [w, x, y, z], 4, true⟩ :
      SATBMarkQueue Nat).append A).append B).append C).append D
      ).apply_filter p).activeList : Multiset Nat) = ↑[A, C] := by
  have happ : ((((⟨some [w, x, y, z], 4, true⟩ :
      SATBMarkQueue Nat).append A).append B).append C).append D =
      ⟨some [D, C, B, A], 0, true⟩ := by
    simp [SATBMarkQueue.append]
  have hfil : (twoFingerOuter p [D, C, B, A] 0 4) = ([D, C, C, A], 2) := by
    simp [twoFingerOuter, twoFingerInner, hA, hB, hC, hD]
  refine ⟨rfl, rfl, rfl, ?_, ?_, ?_, ?_⟩
  · rw [happ]
  · rw [happ]
    simp [SATBMarkQueue.activeList]
  · rw [happ]
    show (twoFingerOuter p [D, C, B, A] 0 4).2 = 2
    rw [hfil]
  · rw [happ]
    show ((((twoFingerOuter p [D, C, B, A] 0 4).1.drop
      (twoFingerOuter p [D, C, B, A] 0 4).2) : List Nat) :
        Multiset Nat) = ↑[A, C]
    rw [hfil]
    exact Multiset.coe_eq_coe.mpr (List.Perm.swap A C [])

/-- C2 (amended) witness: `A,B,C,D = 1,2,3,4` into an all-zero buffer,
discarding evens. -/
theorem append_filter_scenario_witness :
    ((⟨some [0, 0, 0, 0], 4, true⟩ :
      SATBMarkQueue Nat).append 1).index = 3 ∧
    (((⟨some [0, 0, 0, 0], 4, true⟩ :
      SATBMarkQueue Nat).append 1).append 2).index = 2 ∧
    ((((⟨some [0, 0, 0, 0], 4, true⟩ :
      SATBMarkQueue Nat).append 1).append 2).append 3).index = 1 ∧
    (((((⟨some [0, 0, 0, 0], 4, true⟩ :
      SATBMarkQueue Nat).append 1).append 2).append 3).append 4).index
      = 0 ∧
    (((((⟨some [0, 0, 0, 0], 4, true⟩ :
      SATBMarkQueue Nat).append 1).append 2).append 3).append 4
      ).activeList = [4, 3, 2, 1] ∧
    ((((((⟨some [0, 0, 0, 0], 4, true⟩ :
      SATBMarkQueue Nat).append 1).append 2).append 3).append 4
      ).apply_filter (fun v => v % 2 == 0)).index = 2 ∧
    (((((((⟨some [0, 0, 0, 0], 4, true⟩ :
      SATBMarkQueue Nat).append 1).append 2).append 3).append 4
      ).apply_filter (fun v => v % 2 == 0)).activeList :
        Multiset Nat) = ↑[1, 3] :=
  append_filter_scenario 1 2 3 4 0 0 0 0 (fun v => v % 2 == 0)
    (by decide) (by decide) (by decide) (by decide)

/-! ### Single-pass accounting (C5) -/

theorem twoFingerInnerExam_mem [Inhabited α] (p : α → Bool) (l : List α)
    (src dst : Nat) :
    ∀ i ∈ twoFingerInnerExam p l src dst, src < i ∧ i < dst := by
  induction dst with
  | zero => simp [twoFingerInnerExam]
  | succ d ih =>
    intro i hi
    simp only [twoFingerInnerExam] at hi
    by_cases hsd : src < d
    · rw [if_pos hsd] at hi
      cases hp : p (l.getD d default) with
      | true =>
        rw [if_pos (by rw [hp])] at hi
        simp only [List.mem_singleton] at hi
        omega
      | false =>
        rw [if_neg (by rw [hp]; exact Bool.false_ne_true)] at hi
        rcases List.mem_cons.mp hi with rfl | hi'
        · omega
        · have := ih i hi'
          omega
    · rw [if_neg hsd] at hi
      simp at hi

theorem twoFingerInnerExam_ge [Inhabited α] (p : α → Bool) (l : List α)
    (entry : α) (src dst : Nat) :
    ∀ i ∈ twoFingerInnerExam p l src dst,
      (twoFingerInner p l entry src dst).2 ≤ i := by
  induction dst with
  | zero => simp [twoFingerInnerExam]
  | succ d ih =>
    intro i hi
    simp only [twoFingerInnerExam] at hi
    simp only [twoFingerInner]
    by_cases hsd : src < d
    · rw [if_pos hsd] at hi
      rw [if_pos hsd]
      cases hp : p (l.getD d default) with
      | true =>
        rw [if_pos (by rw [hp])] at hi
        rw [if_pos (by simp [hp])]
        simp only [List.mem_singleton] at hi
        omega
      | false =>
        rw [if_neg (by rw [hp]; exact Bool.false_ne_true)] at hi
        rw [if_neg (by simp [hp])]
        rcases List.mem_cons.mp hi with rfl | hi'
        · have := twoFingerInner_snd_lt p l entry src i hsd
          omega
        · exact ih i hi'
    · rw [if_neg hsd] at hi
      simp at hi

theorem twoFingerInnerExam_nodup [Inhabited α] (p : α → Bool)
    (l : List α) (src dst : Nat) :
    (twoFingerInnerExam p l src dst).Nodup := by
  induction dst with
  | zero => simp [twoFingerInnerExam]
  | succ d ih =>
    simp only [twoFingerInnerExam]
    by_cases hsd : src < d
    · rw [if_pos hsd]
      cases hp : p (l.getD d default) with
      | true =>
        rw [if_pos (by simp [hp])]
        simp
      | false =>
        rw [if_neg (by simp [hp])]
        refine List.nodup_cons.mpr ⟨?_, ih⟩
        intro hd
        have := twoFingerInnerExam_mem p l src d d hd
        omega
    · rw [if_neg hsd]
      simp

theorem twoFingerOuterExam_eq_of_not_lt [Inhabited α] (p : α → Bool)
    (l : List α) (src dst : Nat) (h : ¬ src < dst) :
    twoFingerOuterExam p l src dst = [] := by
  unfold twoFingerOuterExam
  rw [dif_neg h]

theorem twoFingerOuterExam_eq_skip [Inhabited α] (p : α → Bool)
    (l : List α) (src dst : Nat) (h : src < dst)
    (hp : p (l.getD src default) = true) :
    twoFingerOuterExam p l src dst =
      src :: twoFingerOuterExam p l (src + 1) dst := by
  conv_lhs => unfold twoFingerOuterExam
  rw [dif_pos h, if_pos hp]

theorem twoFingerOuterExam_eq_keep [Inhabited α] (p : α → Bool)
    (l : List α) (src dst : Nat) (h : src < dst)
    (hp : p (l.getD src default) = false) :
    twoFingerOuterExam p l src dst =
      src :: (twoFingerInnerExam p l src dst ++
        twoFingerOuterExam p
          (twoFingerInner p l (l.getD src default) src dst).1 (src + 1)
          (twoFingerInner p l (l.getD src default) src dst).2) := by
  conv_lhs => unfold twoFingerOuterExam
  rw [dif_pos h, if_neg (by rw [hp]; exact Bool.false_ne_true)]

theorem twoFingerOuterExam_mem [Inhabited α] (p : α → Bool) :
    ∀ (n : Nat) (l : List α) (src dst : Nat), dst - src ≤ n →
    ∀ i ∈ twoFingerOuterExam p l src dst, src ≤ i ∧ i < dst := by
  intro n
  induction n with
  | zero =>
    intro l src dst hfuel i hi
    rw [twoFingerOuterExam_eq_of_not_lt p l src dst (by omega)] at hi
    simp at hi
  | succ m ih =>
    intro l src dst hfuel i hi
    by_cases hsd : src < dst
    · cases hp : p (l.getD src default) with
      | true =>
        rw [twoFingerOuterExam_eq_skip p l src dst hsd hp] at hi
        rcases List.mem_cons.mp hi with rfl | hi'
        · omega
        · have := ih l (src + 1) dst (by omega) i hi'
          omega
      | false =>
        rw [twoFingerOuterExam_eq_keep p l src dst hsd hp] at hi
        have hlt := twoFingerInner_snd_lt p l (l.getD src default)
          src dst hsd
        rcases List.mem_cons.mp hi with rfl | hi'
        · omega
        · rcases List.mem_append.mp hi' with hin | hout
          · have := twoFingerInnerExam_mem p l src dst i hin
            omega
          · have := ih (twoFingerInner p l (l.getD src default) src dst).1
              (src + 1)
              (twoFingerInner p l (l.getD src default) src dst).2
              (by omega) i hout
            omega
    · rw [twoFingerOuterExam_eq_of_not_lt p l src dst hsd] at hi
      simp at hi

theorem twoFingerOuterExam_nodup [Inhabited α] (p : α → Bool) :
    ∀ (n : Nat) (l : List α) (src dst : Nat), dst - src ≤ n →
    (twoFingerOuterExam p l src dst).Nodup := by
  intro n
  induction n with
  | zero =>
    intro l src dst hfuel
    rw [twoFingerOuterExam_eq_of_not_lt p l src dst (by omega)]
    simp
  | succ m ih =>
    intro l src dst hfuel
    by_cases hsd : src < dst
    · cases hp : p (l.getD src default) with
      | true =>
        rw [twoFingerOuterExam_eq_skip p l src dst hsd hp]
        refine List.nodup_cons.mpr ⟨?_, ih l (src + 1) dst (by omega)⟩
        intro hmem
        have := twoFingerOuterExam_mem p m l (src + 1) dst (by omega)
          src hmem
        omega
      | false =>
        rw [twoFingerOuterExam_eq_keep p l src dst hsd hp]
        have hlt := twoFingerInner_snd_lt p l (l.getD src default)
          src dst hsd
        refine List.nodup_cons.mpr ⟨?_, ?_⟩
        · intro hmem
          rcases List.mem_append.mp hmem with hin | hout
          · have := twoFingerInnerExam_mem p l src dst src hin
            omega
          · have := twoFingerOuterExam_mem p m
              (twoFingerInner p l (l.getD src default) src dst).1
              (src + 1)
              (twoFingerInner p l (l.getD src default) src dst).2
              (by omega) src hout
            omega
        · refine List.Nodup.append (twoFingerInnerExam_nodup p l src dst)
            (ih _ (src + 1) _ (by omega)) ?_
          intro i hin hout
          have h1 := twoFingerInnerExam_ge p l (l.getD src default)
            src dst i hin
          have h2 := twoFingerOuterExam_mem p m
            (twoFingerInner p l (l.getD src default) src dst).1
            (src + 1) (twoFingerInner p l (l.getD src default) src dst).2
            (by omega) i hout
          omega
    · rw [twoFingerOuterExam_eq_of_not_lt p l src dst hsd]
      simp

/-- C5: `apply_filter` is single-pass and in place: it terminates on all
inputs (it is a total function of this development), the list of slots on
which the predicate is evaluated has no duplicates (each slot of the
active range is examined at most once) and stays within the active range
`[index, C)`, and the buffer keeps its length (all movement is inside the
existing buffer, no allocation). -/
theorem apply_filter_single_pass [Inhabited α] (p : α → Bool)
    (q : SATBMarkQueue α) (l : List α) (hbuf : q.buf = some l)
    (hidx : q.index ≤ l.length) :
    (q.applyFilterExam p).Nodup ∧
    (∀ i ∈ q.applyFilterExam p, q.index ≤ i ∧ i < l.length) ∧
    ((q.apply_filter p).buf.getD []).length = l.length := by
  obtain ⟨L1, _, _, _, _⟩ :=
    twoFingerOuter_spec p (l.length - q.index) l q.index l.length
      (by omega) hidx (Nat.le_refl _) (by simp)
  have hexam : q.applyFilterExam p =
      twoFingerOuterExam p l q.index l.length := by
    unfold SATBMarkQueue.applyFilterExam
    rw [hbuf]
  have hq : q.apply_filter p =
      { buf := some (twoFingerOuter p l q.index l.length).1,
        index := (twoFingerOuter p l q.index l.length).2,
        active := q.active } := by
    unfold SATBMarkQueue.apply_filter
    rw [hbuf]
  refine ⟨?_, ?_, ?_⟩
  · rw [hexam]
    exact twoFingerOuterExam_nodup p (l.length - q.index) l q.index
      l.length (by omega)
  · rw [hexam]
    exact twoFingerOuterExam_mem p (l.length - q.index) l q.index
      l.length (by omega)
  · rw [hq]
    exact L1

/-- C5 witness. -/
theorem apply_filter_single_pass_witness :
    (((⟨some [4, 3, 2, 1], 0, true⟩ :
        SATBMarkQueue Nat).applyFilterExam (fun v => v % 2 == 0)).Nodup) ∧
    (∀ i ∈ ((⟨some [4, 3, 2, 1], 0, true⟩ :
        SATBMarkQueue Nat).applyFilterExam (fun v => v % 2 == 0)),
      0 ≤ i ∧ i < [4, 3, 2, 1].length) ∧
    ((((⟨some [4, 3, 2, 1], 0, true⟩ :
        SATBMarkQueue Nat).apply_filter
          (fun v => v % 2 == 0)).buf.getD []).length
      = [4, 3, 2, 1].length) :=
  apply_filter_single_pass (fun v => v % 2 == 0)
    ⟨some [4, 3, 2, 1], 0, true⟩ [4, 3, 2, 1] rfl (by decide)

/-- C6: `flush()` on an already empty buffer (`index == C`) never adds to
the completed set; on a queue whose post-filter active range is non-empty
it adds exactly one buffer, whose active range is the filtered result; in
both cases the queue is reset to the empty/absent state. -/
theorem flush_spec [Inhabited α] (p : α → Bool) (q : SATBMarkQueue α)
    (l : List α) (s : SATBQueueSetState α) (hbuf : q.buf = some l)
    (hidx : q.index ≤ l.length) :
    (q.index = l.length →
      (q.flush p l.length s).2.completed = s.completed) ∧
    ((q.apply_filter p).index < l.length →
      (q.flush p l.length s).2.completed =
        ((q.apply_filter p).buf.getD [], (q.apply_filter p).index)
          :: s.completed ∧
      ((q.apply_filter p).buf.getD []).drop (q.apply_filter p).index
        = (q.apply_filter p).activeList) ∧
    (q.flush p l.length s).1.buf = none ∧
    (q.flush p l.length s).1.index = l.length := by
  obtain ⟨L1, L2, L3, L4, L5⟩ :=
    twoFingerOuter_spec p (l.length - q.index) l q.index l.length
      (by omega) hidx (Nat.le_refl _) (by simp)
  have hq : q.apply_filter p =
      { buf := some (twoFingerOuter p l q.index l.length).1,
        index := (twoFingerOuter p l q.index l.length).2,
        active := q.active } := by
    unfold SATBMarkQueue.apply_filter
    rw [hbuf]
  have hflush : q.flush p l.length s =
      (if (twoFingerOuter p l q.index l.length).2 <
          (twoFingerOuter p l q.index l.length).1.length then
        ((q.apply_filter p).reset l.length,
         ⟨((twoFingerOuter p l q.index l.length).1,
           (twoFingerOuter p l q.index l.length).2) :: s.completed,
          s.free⟩)
      else ((q.apply_filter p).reset l.length,
        ⟨s.completed, s.free + 1⟩)) := by
    unfold SATBMarkQueue.flush
    rw [hq]
  refine ⟨?_, ?_, ?_, ?_⟩
  · intro hempty
    have hR : twoFingerOuter p l q.index l.length = (l, l.length) := by
      rw [hempty]
      exact twoFingerOuter_eq_of_not_lt p l l.length l.length (by omega)
    rw [hflush, hR, if_neg (by simp)]
  · intro hlt
    rw [hq] at hlt
    simp only at hlt
    rw [hflush, if_pos (by omega)]
    refine ⟨?_, rfl⟩
    rw [hq]
    rfl
  · rw [hflush]
    split_ifs <;> rfl
  · rw [hflush]
    split_ifs <;> rfl

/-- C6 witness: buffer `[4,3,2,1]`, index 0, discard evens, empty pool. -/
theorem flush_spec_witness :
    ((⟨some [4, 3, 2, 1], 0, true⟩ : SATBMarkQueue Nat).index =
        [4, 3, 2, 1].length →
      ((⟨some [4, 3, 2, 1], 0, true⟩ : SATBMarkQueue Nat).flush
        (fun v => v % 2 == 0) [4, 3, 2, 1].length
        ⟨[], 0⟩).2.completed = (⟨[], 0⟩ : SATBQueueSetState Nat).completed) ∧
    (((⟨some [4, 3, 2, 1], 0, true⟩ : SATBMarkQueue Nat).apply_filter
        (fun v => v % 2 == 0)).index < [4, 3, 2, 1].length →
      ((⟨some [4, 3, 2, 1], 0, true⟩ : SATBMarkQueue Nat).flush
        (fun v => v % 2 == 0) [4, 3, 2, 1].length ⟨[], 0⟩).2.completed =
        (((⟨some [4, 3, 2, 1], 0, true⟩ :
            SATBMarkQueue Nat).apply_filter
              (fun v => v % 2 == 0)).buf.getD [],
         ((⟨some [4, 3, 2, 1], 0, true⟩ :
            SATBMarkQueue Nat).apply_filter
              (fun v => v % 2 == 0)).index)
          :: (⟨[], 0⟩ : SATBQueueSetState Nat).completed ∧
      (((⟨some [4, 3, 2, 1], 0, true⟩ : SATBMarkQueue Nat).apply_filter
          (fun v => v % 2 == 0)).buf.getD []).drop
        ((⟨some [4, 3, 2, 1], 0, true⟩ : SATBMarkQueue Nat).apply_filter
          (fun v => v % 2 == 0)).index
        = ((⟨some [4, 3, 2, 1], 0, true⟩ :
            SATBMarkQueue Nat).apply_filter
              (fun v => v % 2 == 0)).activeList) ∧
    ((⟨some [4, 3, 2, 1], 0, true⟩ : SATBMarkQueue Nat).flush
      (fun v => v % 2 == 0) [4, 3, 2, 1].length ⟨[], 0⟩).1.buf = none ∧
    ((⟨some [4, 3, 2, 1], 0, true⟩ : SATBMarkQueue Nat).flush
      (fun v => v % 2 == 0) [4, 3, 2, 1].length ⟨[], 0⟩).1.index
      = [4, 3, 2, 1].length :=
  flush_spec (fun v => v % 2 == 0) ⟨some [4, 3, 2, 1], 0, true⟩
    [4, 3, 2, 1] ⟨[], 0⟩ rfl (by decide)

/-- C7: draining pops exactly the first completed buffer, hands its
active range to the consumer, recycles it to the free list, and returns
`true`; an empty completed set yields `false`, no consumer invocation and
no state change — availability is only ever signalled by the boolean. -/
theorem apply_closure_spec (s : SATBQueueSetState α) :
    (s.completed = [] →
      applyClosureToCompletedBuffer s = (false, none, s)) ∧
    (∀ b rest, s.completed = b :: rest →
      applyClosureToCompletedBuffer s =
        (true, some (b.1.drop b.2), ⟨rest, s.free + 1⟩)) ∧
    ((applyClosureToCompletedBuffer s).1 = true ↔ s.completed ≠ []) := by
  obtain ⟨cs, fr⟩ := s
  cases cs with
  | nil =>
    refine ⟨fun _ => rfl, ?_, by simp [applyClosureToCompletedBuffer]⟩
    intro b rest h
    simp at h
  | cons b0 rest0 =>
    refine ⟨fun h => by simp at h, ?_,
      by simp [applyClosureToCompletedBuffer]⟩
    intro b rest h
    have h' : b0 = b ∧ rest0 = rest := by simpa using h
    obtain ⟨rfl, rfl⟩ := h'
    rfl

/-- C7 witness: one completed buffer `([5,6], 1)` (active range `[6]`),
then an empty completed set. -/
theorem apply_closure_spec_witness :
    applyClosureToCompletedBuffer
      (⟨[([5, 6], 1)], 2⟩ : SATBQueueSetState Nat) =
      (true, some [6], ⟨[], 3⟩) ∧
    applyClosureToCompletedBuffer (⟨[], 2⟩ : SATBQueueSetState Nat) =
      (false, none, ⟨[], 2⟩) :=
  ⟨(apply_closure_spec ⟨[([5, 6], 1)], 2⟩).2.1 ([5, 6], 1) [] rfl,
   (apply_closure_spec ⟨[], 2⟩).1 rfl⟩

/-- C8: after `abandon_partial_marking()` every live queue and the shared
queue is buffer-absent with `index == C`, the completed set is empty, and
an immediately following drain reports nothing available. -/
theorem abandon_spec (cap : Nat) (qs : List (SATBMarkQueue α))
    (shared : SATBMarkQueue α) (s : SATBQueueSetState α) :
    (∀ q' ∈ (abandonPartialMarking cap qs shared s).1,
      q'.buf = none ∧ q'.index = cap) ∧
    (abandonPartialMarking cap qs shared s).2.1.buf = none ∧
    (abandonPartialMarking cap qs shared s).2.1.index = cap ∧
    (abandonPartialMarking cap qs shared s).2.2.completed = [] ∧
    (applyClosureToCompletedBuffer
      (abandonPartialMarking cap qs shared s).2.2).1 = false := by
  refine ⟨?_, rfl, rfl, rfl, rfl⟩
  intro q' hq'
  simp only [abandonPartialMarking, List.mem_map] at hq'
  obtain ⟨q0, _, rfl⟩ := hq'
  exact ⟨rfl, rfl⟩

/-- C8 witness: one live queue, a non-trivially filled shared queue and a
non-empty completed set. -/
theorem abandon_spec_witness :
    ((⟨none, 2, true⟩ : SATBMarkQueue Nat).buf = none ∧
      (⟨none, 2, true⟩ : SATBMarkQueue Nat).index = 2) ∧
    (abandonPartialMarking 2
      [(⟨some [1, 2], 0, true⟩ : SATBMarkQueue Nat)]
      ⟨some [9], 1, false⟩ ⟨[([3], 0)], 5⟩).2.2.completed = [] ∧
    (applyClosureToCompletedBuffer
      (abandonPartialMarking 2
        [(⟨some [1, 2], 0, true⟩ : SATBMarkQueue Nat)]
        ⟨some [9], 1, false⟩ ⟨[([3], 0)], 5⟩).2.2).1 = false :=
  ⟨(abandon_spec 2 [⟨some [1, 2], 0, true⟩] ⟨some [9], 1, false⟩
      ⟨[([3], 0)], 5⟩).1 ⟨none, 2, true⟩ (by decide),
   (abandon_spec 2 [⟨some [1, 2], 0, true⟩] ⟨some [9], 1, false⟩
      ⟨[([3], 0)], 5⟩).2.2.2.1,
   (abandon_spec 2 [⟨some [1, 2], 0, true⟩] ⟨some [9], 1, false⟩
      ⟨[([3], 0)], 5⟩).2.2.2.2⟩

end SATB
